import Mathlib

/-!
Verification of the retrieval core of the wikipedia-rag-assistant repository.

The development shallowly embeds the algorithmic core of the repository:

* `src/data_loader.py` — `WikipediaLoader.chunk_text` (overlapping word chunking);
* `src/rag_system.py` — `WikipediaRAGSystem.add_documents` (ingestion: chunking,
  metadata and id construction), `generate_answer` (template answer assembly) and
  `retrieve_and_generate` (source deduplication and result assembly).

Texts are represented by their whitespace-token sequences (`List α`); Python
machine behaviour that the claims depend on (slice clamping, the `range` step
rules) is modelled explicitly.  Distances returned by the vector store are
modelled as rationals.  The vector store and the embedding model are external
collaborators: the retrieval functions are embedded as functions of the result
sequences the store hands back, exactly as the source consumes them.
-/

/-- Normalisation of a Python slice bound `xs[_ : j]` for a list of length `n`:
a negative bound counts from the end of the list (clamped below by `0`), a
non-negative bound is clamped above by `n`. -/
def pyIdx (n : Nat) (j : Int) : Nat :=
  if j < 0 then (j + n).toNat else min j.toNat n

/-- Python slice `xs[i : j]` for a non-negative start index `i`. -/
def pySlice {α : Type} (xs : List α) (i : Nat) (j : Int) : List α :=
  (xs.drop i).take (pyIdx xs.length j - i)

/-- Loop of `WikipediaLoader.chunk_text` (src/data_loader.py, lines 91-96):
`for i in range(0, len(words), step): chunks.append(words[i:i+chunk_size]);
if i + chunk_size >= len(words): break`.  The word list, the chunk size and the
positive step are fixed; `i` is the running window start. -/
def chunkLoop {α : Type} (words : List α) (chunk_size : Int) (step i : Nat) :
    List (List α) :=
  if _h : 0 < step ∧ i < words.length then
    pySlice words i ((i : Int) + chunk_size) ::
      (if (words.length : Int) ≤ (i : Int) + chunk_size then []
       else chunkLoop words chunk_size step (i + step))
  else []
termination_by words.length - i
decreasing_by omega

/-- `WikipediaLoader.chunk_text` (src/data_loader.py, lines 86-98), on the
whitespace-token sequence of the input text.  The Python defaults are
`chunk_size = 500`, `overlap = 50`.  A zero `range` step (`chunk_size = overlap`)
raises `ValueError` in Python, modelled as `Except.error`; a negative step makes
`range(0, len(words), step)` empty, so the function returns an empty chunk list
without failing. -/
def chunk_text {α : Type} (words : List α) (chunk_size overlap : Int) :
    Except String (List (List α)) :=
  if chunk_size - overlap = 0 then
    Except.error "ValueError: range() arg 3 must not be zero"
  else if chunk_size - overlap < 0 then
    Except.ok []
  else
    Except.ok (chunkLoop words chunk_size (chunk_size - overlap).toNat 0)

/-- Specification predicate for `chunk_text` on a non-empty token sequence with
valid parameters (`chunk_size > overlap ≥ 0`): there is a chunk count `m ≥ 1`
such that the result is exactly the windows of `chunk_size` tokens starting at
offsets `0, stride, 2*stride, …` with `stride = chunk_size - overlap`; every
window before the last ends strictly before the end of the token sequence and
the last window reaches or exceeds it; every token position is covered by some
window; and each window before the last is full (`chunk_size` tokens) and
shares exactly `overlap` tokens with its successor (its last `overlap` tokens
are the `overlap` tokens at the start of the successor). -/
def chunkTextSpec {α : Type} (words : List α) (cs ov : Int) : Prop :=
  ∃ m : Nat, 0 < m ∧
    chunk_text words cs ov =
      Except.ok ((List.range m).map
        (fun k => (words.drop (k * (cs - ov).toNat)).take cs.toNat)) ∧
    (∀ k, k + 1 < m → k * (cs - ov).toNat + cs.toNat < words.length) ∧
    words.length ≤ (m - 1) * (cs - ov).toNat + cs.toNat ∧
    (∀ j, j < words.length →
      ∃ k, k < m ∧ k * (cs - ov).toNat ≤ j ∧ j < k * (cs - ov).toNat + cs.toNat) ∧
    (∀ k, k + 1 < m →
      ((words.drop (k * (cs - ov).toNat)).take cs.toNat).length = cs.toNat ∧
      ((words.drop (k * (cs - ov).toNat)).take cs.toNat).drop ((cs - ov).toNat) =
        (words.drop ((k + 1) * (cs - ov).toNat)).take ov.toNat ∧
      ((words.drop ((k + 1) * (cs - ov).toNat)).take ov.toNat).length = ov.toNat)

/-- Metadata entry recorded for a retrieved passage, as the retrieval engine
reads it (the lookups of title, url and topic on `meta` in
src/rag_system.py, lines 133-141). -/
structure SMeta where
  title : String
  url : String
  topic : String
deriving DecidableEq

/-- Source entry assembled by `retrieve_and_generate` (src/rag_system.py,
lines 135-140). -/
structure SourceEntry where
  title : String
  url : String
  topic : String
  relevance_score : Rat
deriving DecidableEq

/-- Source dictionary built from one result passage: the relevance score is
`1 - distance` (src/rag_system.py, line 139). -/
def sourceOf (m : SMeta) (d : Rat) : SourceEntry :=
  ⟨m.title, m.url, m.topic, 1 - d⟩

/-- Source-collection loop of `retrieve_and_generate` (src/rag_system.py,
lines 130-141): walk the zipped (metadata, distance) pairs in order, keeping a
pair only when its title has not been seen, and record the seen titles. -/
def sourcesLoop : List (SMeta × Rat) → List String → List SourceEntry
  | [], _ => []
  | (m, d) :: rest, seen =>
    if m.title ∈ seen then sourcesLoop rest seen
    else sourceOf m d :: sourcesLoop rest (m.title :: seen)

/-- Result sequence handed back by the vector store query, as the retrieval
engine consumes it (src/rag_system.py, lines 122-124): the passage texts, their
metadata and their distances, in the ranked order of the store. -/
structure QueryResults where
  documents : List String
  metadatas : List SMeta
  distances : List Rat
deriving DecidableEq

/-- Value returned by `retrieve_and_generate` (src/rag_system.py,
lines 143-148). -/
structure RetrievalResult where
  query : String
  answer : String
  sources : List SourceEntry
  retrieved_chunks : Nat
deriving DecidableEq

/-- Literal template text of `generate_answer` before the query
(src/rag_system.py, line 107). -/
def ansHead : String :=
  "Based on the Wikipedia articles, here\x27s what I found about your query: \""

/-- Literal template text of `generate_answer` between the query and the
context (src/rag_system.py, lines 107-110). -/
def ansMid : String := "\"\n\nContext from Wikipedia:\n"

/-- Literal template text of `generate_answer` after the truncated context
(src/rag_system.py, lines 110-112). -/
def ansTail : String :=
  "...\n\nThis information comes from Wikipedia articles. For more detailed information, please refer to the original sources."

/-- `WikipediaRAGSystem.generate_answer` (src/rag_system.py, lines 101-114):
join the first three context passages with blank lines, truncate the joined
context to 1500 characters, and splice query and context into the fixed
template. -/
def generate_answer (query : String) (context_docs : List String) : String :=
  let context := String.intercalate "\n\n" (context_docs.take 3)
  ansHead ++ query ++ ansMid ++ context.take 1500 ++ ansTail

/-- `WikipediaRAGSystem.retrieve_and_generate` (src/rag_system.py,
lines 116-148), as a function of the result sequence returned by the vector
store for the query.  The sources are the title-deduplicated entries truncated
to the first three; `retrieved_chunks` is the number of returned passages. -/
def retrieve_and_generate (query : String) (results : QueryResults) :
    RetrievalResult :=
  { query := query
    answer := generate_answer query results.documents
    sources := (sourcesLoop (results.metadatas.zip results.distances) []).take 3
    retrieved_chunks := results.documents.length }

/-- Specification-side description of the dedup step (spec §4.4, step 5):
keep the first occurrence of each distinct document title, dropping every later
pair with an already-seen title, preserving order. -/
def specDedupFirstByTitle : List (SMeta × Rat) → List (SMeta × Rat)
  | [] => []
  | p :: rest =>
    p :: specDedupFirstByTitle (rest.filter (fun q => q.1.title ≠ p.1.title))
termination_by l => l.length
decreasing_by
  exact Nat.lt_succ_of_le (List.length_filter_le _ _)

/-- Wikipedia article as ingested by `add_documents` (src/rag_system.py,
lines 47-62): title, content (represented by its whitespace-token sequence),
url and topic. -/
structure Article where
  title : String
  content : List String
  url : String
  topic : String
deriving DecidableEq

/-- Value stored in a metadata map: Python string or int. -/
inductive MVal
  | s : String → MVal
  | n : Nat → MVal
deriving DecidableEq

/-- Metadata dictionary built for one chunk by `add_documents`
(src/rag_system.py, lines 53-59): the literal keys are `title`, `url`,
`topic`, `chunk_id` and `total_chunks`. -/
def mkMetadata (a : Article) (chunk_idx total : Nat) : List (String × MVal) :=
  [("title", MVal.s a.title), ("url", MVal.s a.url), ("topic", MVal.s a.topic),
   ("chunk_id", MVal.n chunk_idx), ("total_chunks", MVal.n total)]

/-- Chunking of the content of one article as `add_documents` performs it
(src/rag_system.py, line 49): `chunk_text` with the Python defaults
`chunk_size = 500`, `overlap = 50` (a stride of 450, so no error can occur). -/
def chunks_of (content : List String) : List (List String) :=
  match chunk_text content 500 50 with
  | Except.ok cs => cs
  | Except.error _ => []

/-- Parallel lists accumulated by `add_documents` before insertion into the
vector store (src/rag_system.py, lines 41-43): chunk texts, metadata
dictionaries and record ids, index-aligned. -/
structure RecordBatch where
  documents : List (List String)
  metadatas : List (List (String × MVal))
  ids : List String
deriving DecidableEq

/-- Accumulation loop of `add_documents` (src/rag_system.py, lines 45-62):
for each article, chunk its content, and for each chunk append the chunk, its
metadata and the id `"{doc_id}_{chunk_idx}"`; `doc_id` increases by one per
article. -/
def addDocsLoop : List Article → Nat → RecordBatch
  | [], _ => ⟨[], [], []⟩
  | a :: rest, doc_id =>
    ⟨chunks_of a.content ++ (addDocsLoop rest (doc_id + 1)).documents,
     (chunks_of a.content).enum.map
        (fun ci => mkMetadata a ci.1 (chunks_of a.content).length) ++
       (addDocsLoop rest (doc_id + 1)).metadatas,
     (chunks_of a.content).enum.map
        (fun ci => toString doc_id ++ "_" ++ toString ci.1) ++
       (addDocsLoop rest (doc_id + 1)).ids⟩

/-- `WikipediaRAGSystem.add_documents` (src/rag_system.py, lines 36-85): build
the record batch starting from ordinal `0`.  The Python function body has no
`return` statement, so the value returned to the caller is `None`, modelled as
`none : Option Nat` alongside the batch handed to the vector store. -/
def add_documents (articles : List Article) : RecordBatch × Option Nat :=
  (addDocsLoop articles 0, none)

/-- Concrete single-chunk article used as a test input. -/
def demoArticle : Article :=
  ⟨"Artificial intelligence", ["AI"], "https://en.wikipedia.org/wiki/AI", "AI"⟩

/-- Concrete article whose content has 1200 whitespace tokens (chunks into 3
passages under the default parameters). -/
def demoArticle1200 : Article :=
  ⟨"Machine learning", List.replicate 1200 "w",
   "https://en.wikipedia.org/wiki/ML", "ML"⟩

/-- Concrete article whose content has 600 whitespace tokens (chunks into 2
passages under the default parameters). -/
def demoArticle600 : Article :=
  ⟨"Python", List.replicate 600 "w",
   "https://en.wikipedia.org/wiki/Python", "Python"⟩

theorem pySlice_nonneg {α : Type} (xs : List α) (i : Nat) (cs : Int)
    (hc : 0 ≤ cs) : pySlice xs i ((i : Int) + cs) = (xs.drop i).take cs.toNat := by
  unfold pySlice pyIdx
  rw [List.take_eq_take]
  split
  · omega
  · simp only [List.length_drop]
    omega

theorem chunkLoop_nil {α : Type} (w : List α) (cs : Int) (s i : Nat)
    (h : ¬(0 < s ∧ i < w.length)) : chunkLoop w cs s i = [] := by
  rw [chunkLoop]
  exact dif_neg h

theorem chunkLoop_last {α : Type} (w : List α) (cs : Int) (s i : Nat)
    (hc : 0 ≤ cs) (hs : 0 < s) (hi : i < w.length)
    (hbreak : (w.length : Int) ≤ (i : Int) + cs) :
    chunkLoop w cs s i = [(w.drop i).take cs.toNat] := by
  rw [chunkLoop, dif_pos ⟨hs, hi⟩, if_pos hbreak, pySlice_nonneg _ _ _ hc]

theorem chunkLoop_cons {α : Type} (w : List α) (cs : Int) (s i : Nat)
    (hc : 0 ≤ cs) (hs : 0 < s) (hi : i < w.length)
    (hcont : (i : Int) + cs < (w.length : Int)) :
    chunkLoop w cs s i =
      (w.drop i).take cs.toNat :: chunkLoop w cs s (i + s) := by
  rw [chunkLoop, dif_pos ⟨hs, hi⟩, if_neg (by omega), pySlice_nonneg _ _ _ hc]

theorem chunkLoop_spec {α : Type} (w : List α) (cs : Int) (s i : Nat)
    (hc : 0 ≤ cs) (hs : 0 < s) (hsc : s ≤ cs.toNat) (hi : i < w.length) :
    ∃ m : Nat, 0 < m ∧
      chunkLoop w cs s i =
        (List.range m).map (fun k => (w.drop (i + k * s)).take cs.toNat) ∧
      (∀ k, k < m → i + k * s < w.length) ∧
      (∀ k, k + 1 < m → i + k * s + cs.toNat < w.length) ∧
      w.length ≤ i + (m - 1) * s + cs.toNat := by
  by_cases hbreak : (w.length : Int) ≤ (i : Int) + cs
  · refine ⟨1, Nat.one_pos, ?_, ?_, ?_, ?_⟩
    · rw [chunkLoop_last w cs s i hc hs hi hbreak]
      have e : List.range 1 = [0] := rfl
      simp [e]
    · intro k hk
      have hk0 : k = 0 := by omega
      subst hk0
      simpa using hi
    · intro k hk
      omega
    · omega
  · push_neg at hbreak
    have hi' : i + s < w.length := by omega
    obtain ⟨m', hm'pos, heq, hlt, hfull, hlast⟩ :=
      chunkLoop_spec w cs s (i + s) hc hs hsc hi'
    refine ⟨m' + 1, Nat.succ_pos _, ?_, ?_, ?_, ?_⟩
    · rw [chunkLoop_cons w cs s i hc hs hi hbreak, heq,
        List.range_succ_eq_map, List.map_cons, List.map_map]
      congr 1
      · simp
      · apply List.map_congr_left
        intro k _
        simp only [Function.comp_def, Nat.succ_eq_add_one]
        congr 2
        ring
    · intro k hk
      cases k with
      | zero => simpa using hi
      | succ k' =>
        have h1 := hlt k' (by omega)
        have e : (k' + 1) * s = k' * s + s := by ring
        omega
    · intro k hk
      cases k with
      | zero =>
        omega
      | succ k' =>
        have h1 := hfull k' (by omega)
        have e : (k' + 1) * s = k' * s + s := by ring
        omega
    · have e : m' * s = (m' - 1) * s + s := by
        cases m' with
        | zero => omega
        | succ t => simp [Nat.succ_mul]
      have e2 : (m' + 1 - 1) * s = m' * s := by
        simp
      omega
termination_by w.length - i
decreasing_by omega

theorem chunk_text_ok_of_valid {α : Type} (words : List α) (cs ov : Int)
    (h : ov < cs) :
    chunk_text words cs ov =
      Except.ok (chunkLoop words cs (cs - ov).toNat 0) := by
  unfold chunk_text
  rw [if_neg (by omega), if_neg (by omega)]

theorem chunk_text_len1200 {α : Type} (w : List α) (hlen : w.length = 1200) :
    chunk_text w 500 50 =
      Except.ok [w.take 500, (w.drop 450).take 500, (w.drop 900).take 500] := by
  rw [chunk_text_ok_of_valid _ 500 50 (by norm_num)]
  have ht : ((500 : Int) - 50).toNat = 450 := by decide
  rw [ht]
  rw [chunkLoop_cons _ _ _ _ (by norm_num) (by norm_num) (by omega)
    (by rw [hlen]; norm_num)]
  rw [chunkLoop_cons _ _ _ _ (by norm_num) (by norm_num) (by omega)
    (by rw [hlen]; norm_num)]
  rw [chunkLoop_last _ _ _ _ (by norm_num) (by norm_num) (by omega)
    (by rw [hlen]; norm_num)]
  simp

theorem chunk_text_len600 {α : Type} (w : List α) (hlen : w.length = 600) :
    chunk_text w 500 50 =
      Except.ok [w.take 500, (w.drop 450).take 500] := by
  rw [chunk_text_ok_of_valid _ 500 50 (by norm_num)]
  have ht : ((500 : Int) - 50).toNat = 450 := by decide
  rw [ht]
  rw [chunkLoop_cons _ _ _ _ (by norm_num) (by norm_num) (by omega)
    (by rw [hlen]; norm_num)]
  rw [chunkLoop_last _ _ _ _ (by norm_num) (by norm_num) (by omega)
    (by rw [hlen]; norm_num)]
  simp

/-- C1: for every non-empty whitespace-token sequence and parameters with
`chunk_size > overlap ≥ 0`, `chunk_text` returns exactly the windows of up to
`chunk_size` tokens starting at offsets `0, stride, 2*stride, …` with
`stride = chunk_size - overlap`, stopping with the first window that reaches or
exceeds the end of the sequence; every token is covered by some chunk and
adjacent chunks share exactly `overlap` tokens (`chunkTextSpec`).  In
particular a 1200-token input with `chunk_size = 500`, `overlap = 50` yields
exactly the three chunks at token offsets `[0:500)`, `[450:950)`,
`[900:1200)`. -/
theorem chunk_text_window_layout :
    (∀ {α : Type} (words : List α) (cs ov : Int),
      words ≠ [] → 0 ≤ ov → ov < cs → chunkTextSpec words cs ov) ∧
    chunk_text (List.range 1200) 500 50 =
      Except.ok [(List.range 1200).take 500,
        ((List.range 1200).drop 450).take 500,
        ((List.range 1200).drop 900).take 500] := by
  constructor
  · intro α words cs ov hw hov hcs
    have hc : (0 : Int) ≤ cs := by omega
    have hs : 0 < (cs - ov).toNat := by omega
    have hsc : (cs - ov).toNat ≤ cs.toNat := by omega
    have hi : 0 < words.length := List.length_pos.mpr hw
    obtain ⟨m, hm, heq, hlt, hfull, hlast⟩ :=
      chunkLoop_spec words cs (cs - ov).toNat 0 hc hs hsc hi
    refine ⟨m, hm, ?_, ?_, ?_, ?_, ?_⟩
    · rw [chunk_text_ok_of_valid words cs ov hcs, heq]
      simp only [Nat.zero_add]
    · intro k hk
      have := hfull k hk
      omega
    · have := hlast
      omega
    · intro j hj
      by_cases hqm : j / (cs - ov).toNat < m
      · refine ⟨j / (cs - ov).toNat, hqm, Nat.div_mul_le_self j _, ?_⟩
        have h3 := Nat.div_add_mod j (cs - ov).toNat
        have h4 : j % (cs - ov).toNat < (cs - ov).toNat := Nat.mod_lt _ hs
        have e1 : j / (cs - ov).toNat * (cs - ov).toNat =
            (cs - ov).toNat * (j / (cs - ov).toNat) := by ring
        omega
      · refine ⟨m - 1, by omega, ?_, ?_⟩
        · have h5 : (m - 1) * (cs - ov).toNat ≤
              j / (cs - ov).toNat * (cs - ov).toNat :=
            Nat.mul_le_mul_right _ (by omega)
          have h6 := Nat.div_mul_le_self j (cs - ov).toNat
          omega
        · have := hlast
          omega
    · intro k hk
      have hkfull := hfull k hk
      have hklt := hlt k (by omega)
      have e3 : (k + 1) * (cs - ov).toNat = k * (cs - ov).toNat + (cs - ov).toNat := by
        ring
      refine ⟨?_, ?_, ?_⟩
      · simp only [List.length_take, List.length_drop]
        omega
      · rw [List.drop_take, List.drop_drop]
        have e1 : k * (cs - ov).toNat + (cs - ov).toNat =
            (k + 1) * (cs - ov).toNat := by ring
        have e2 : cs.toNat - (cs - ov).toNat = ov.toNat := by omega
        rw [e1, e2]
      · simp only [List.length_take, List.length_drop]
        omega
  · exact chunk_text_len1200 (List.range 1200) (List.length_range 1200)

/-- Witness for `chunk_text_window_layout`: the 1200-token input with the
default parameters satisfies the hypotheses, and the window specification
holds there. -/
theorem chunk_text_window_layout_witness :
    (List.range 1200 ≠ [] ∧ (0 : Int) ≤ 50 ∧ (50 : Int) < 500) ∧
      chunkTextSpec (List.range 1200) 500 50 :=
  ⟨⟨by simp, by norm_num, by norm_num⟩,
    chunk_text_window_layout.1 (List.range 1200) 500 50 (by simp)
      (by norm_num) (by norm_num)⟩

/-- C10: for every non-empty token sequence and valid parameters
(`chunk_size > overlap ≥ 0`), every chunk returned by `chunk_text` is
non-empty, and every chunk except the last contains exactly `chunk_size`
tokens. -/
theorem chunk_text_full_chunks {α : Type} (words : List α) (cs ov : Int)
    (hw : words ≠ []) (hov : 0 ≤ ov) (hcs : ov < cs) :
    ∀ chunks, chunk_text words cs ov = Except.ok chunks →
      (∀ ch ∈ chunks, ch ≠ []) ∧
      (∀ k, k + 1 < chunks.length → (chunks.getD k []).length = cs.toNat) := by
  intro chunks hok
  have hc : (0 : Int) ≤ cs := by omega
  have hs : 0 < (cs - ov).toNat := by omega
  have hsc : (cs - ov).toNat ≤ cs.toNat := by omega
  have hi : 0 < words.length := List.length_pos.mpr hw
  obtain ⟨m, hm, heq, hlt, hfull, hlast⟩ :=
    chunkLoop_spec words cs (cs - ov).toNat 0 hc hs hsc hi
  rw [chunk_text_ok_of_valid words cs ov hcs, heq] at hok
  injection hok with h
  subst h
  constructor
  · intro ch hch
    rw [List.mem_map] at hch
    obtain ⟨k, hk, rfl⟩ := hch
    have hklt : k < m := List.mem_range.mp hk
    apply List.ne_nil_of_length_pos
    have h1 := hlt k hklt
    simp only [List.length_take, List.length_drop]
    omega
  · intro k hk
    simp only [List.length_map, List.length_range] at hk
    have hklt : k < m := by omega
    have hgd :
        ((List.range m).map
            (fun k => (words.drop (0 + k * (cs - ov).toNat)).take cs.toNat)).getD
          k [] =
        (words.drop (0 + k * (cs - ov).toNat)).take cs.toNat := by
      rw [List.getD_eq_getElem?_getD,
        List.getElem?_eq_getElem (by simpa using hklt)]
      simp
    rw [hgd]
    have h1 := hfull k hk
    simp only [List.length_take, List.length_drop]
    omega

/-- Witness for `chunk_text_full_chunks`: on the three-token input with
`chunk_size = 2`, `overlap = 1` the result is `[[a, b], [b, c]]`; both chunks
are non-empty and the non-final chunk has exactly 2 tokens. -/
theorem chunk_text_full_chunks_witness :
    ((["a", "b", "c"] : List String) ≠ [] ∧ (0 : Int) ≤ 1 ∧ (1 : Int) < 2 ∧
      chunk_text (["a", "b", "c"] : List String) 2 1 =
        Except.ok [["a", "b"], ["b", "c"]]) ∧
    ((∀ ch ∈ ([["a", "b"], ["b", "c"]] : List (List String)), ch ≠ []) ∧
     (∀ k, k + 1 < ([["a", "b"], ["b", "c"]] : List (List String)).length →
       (([["a", "b"], ["b", "c"]] : List (List String)).getD k []).length =
         (2 : Int).toNat)) := by
  have heq : chunk_text (["a", "b", "c"] : List String) 2 1 =
      Except.ok [["a", "b"], ["b", "c"]] := by
    rw [chunk_text_ok_of_valid _ 2 1 (by norm_num)]
    have ht : ((2 : Int) - 1).toNat = 1 := by decide
    rw [ht]
    rw [chunkLoop_cons _ _ _ _ (by norm_num) (by norm_num) (by decide)
      (by decide)]
    rw [chunkLoop_last _ _ _ _ (by norm_num) (by norm_num) (by decide)
      (by decide)]
    rfl
  exact ⟨⟨by decide, by decide, by decide, heq⟩,
    chunk_text_full_chunks (["a", "b", "c"] : List String) 2 1 (by decide)
      (by decide) (by decide) [["a", "b"], ["b", "c"]] heq⟩

/-- C3 counterexample: calling `chunk_text` with `chunk_size = 0`,
`overlap = 1` violates the constraint `chunk_size > overlap ≥ 0`, yet the call
returns normally with an empty chunk list — there is no eager `ConfigError`
validation anywhere in `chunk_text` (a negative `range` step simply makes the
loop body unreachable). -/
theorem chunk_text_no_config_error :
    chunk_text (["a"] : List String) 0 1 = Except.ok [] := rfl

/-- C3 amended: `chunk_text` performs no parameter validation of its own.  When
`chunk_size = overlap` the zero `range` step makes the call fail (Python raises
`ValueError`, not a `ConfigError`); when `chunk_size < overlap` the negative
step makes the call return an empty chunk list without failing; and when
`chunk_size > overlap` (the valid regime included) the call never fails. -/
theorem chunk_text_param_validation {α : Type} (words : List α) (cs ov : Int) :
    (cs = ov →
      chunk_text words cs ov =
        Except.error "ValueError: range() arg 3 must not be zero") ∧
    (cs < ov → chunk_text words cs ov = Except.ok []) ∧
    (ov < cs → ∃ r, chunk_text words cs ov = Except.ok r) := by
  refine ⟨?_, ?_, ?_⟩
  · intro h
    unfold chunk_text
    rw [if_pos (by omega)]
  · intro h
    unfold chunk_text
    rw [if_neg (by omega), if_pos (by omega)]
  · intro h
    exact ⟨_, chunk_text_ok_of_valid words cs ov h⟩

/-- Witness for `chunk_text_param_validation`: each of the three parameter
regimes exercised on a concrete one-token input. -/
theorem chunk_text_param_validation_witness :
    ((1 : Int) = 1 ∧
      chunk_text (["a"] : List String) 1 1 =
        Except.error "ValueError: range() arg 3 must not be zero") ∧
    ((0 : Int) < 1 ∧ chunk_text (["a"] : List String) 0 1 = Except.ok []) ∧
    ((0 : Int) < 1 ∧ ∃ r, chunk_text (["a"] : List String) 1 0 = Except.ok r) :=
  ⟨⟨rfl, (chunk_text_param_validation (["a"] : List String) 1 1).1 rfl⟩,
   ⟨by norm_num, (chunk_text_param_validation (["a"] : List String) 0 1).2.1
      (by norm_num)⟩,
   ⟨by norm_num, (chunk_text_param_validation (["a"] : List String) 1 0).2.2
      (by norm_num)⟩⟩

theorem sourcesLoop_eq_dedup :
    ∀ (pairs : List (SMeta × Rat)) (seen : List String),
      sourcesLoop pairs seen =
        (specDedupFirstByTitle
            (pairs.filter (fun p => p.1.title ∉ seen))).map
          (fun p => sourceOf p.1 p.2) := by
  intro pairs
  induction pairs with
  | nil =>
    intro seen
    simp [sourcesLoop, specDedupFirstByTitle]
  | cons p rest ih =>
    intro seen
    obtain ⟨m, d⟩ := p
    by_cases hm : m.title ∈ seen
    · rw [show sourcesLoop ((m, d) :: rest) seen = sourcesLoop rest seen from
        by simp [sourcesLoop, hm]]
      rw [List.filter_cons_of_neg (by simpa using hm)]
      exact ih seen
    · rw [show sourcesLoop ((m, d) :: rest) seen =
          sourceOf m d :: sourcesLoop rest (m.title :: seen) from
        by simp [sourcesLoop, hm]]
      rw [List.filter_cons_of_pos (by simpa using hm)]
      rw [specDedupFirstByTitle, List.map_cons]
      rw [ih (m.title :: seen)]
      have hfilter :
          rest.filter (fun p => p.1.title ∉ (m.title :: seen)) =
            (rest.filter (fun p => p.1.title ∉ seen)).filter
              (fun q => q.1.title ≠ m.title) := by
        rw [List.filter_filter]
        apply List.filter_congr
        intro a _
        simp [List.mem_cons, not_or]
      rw [hfilter]

theorem specDedup_titles_toFinset (l : List (SMeta × Rat)) (t : String) :
    ((l.filter (fun q => q.1.title ≠ t)).map
        (fun p => p.1.title)).toFinset =
      (l.map (fun p => p.1.title)).toFinset.erase t := by
  ext x
  simp only [List.mem_toFinset, List.mem_map, List.mem_filter,
    Finset.mem_erase, decide_eq_true_eq]
  constructor
  · rintro ⟨q, ⟨hq, hqt⟩, rfl⟩
    exact ⟨hqt, q, hq, rfl⟩
  · rintro ⟨hxt, q, hq, rfl⟩
    exact ⟨q, ⟨hq, hxt⟩, rfl⟩

theorem specDedup_length :
    ∀ l : List (SMeta × Rat),
      (specDedupFirstByTitle l).length =
        (l.map (fun p => p.1.title)).toFinset.card := by
  intro l
  match l with
  | [] => simp [specDedupFirstByTitle]
  | p :: rest =>
    have hrec := specDedup_length (rest.filter (fun q => q.1.title ≠ p.1.title))
    rw [specDedupFirstByTitle, List.length_cons, hrec,
      specDedup_titles_toFinset rest p.1.title, List.map_cons,
      List.toFinset_cons]
    by_cases hmem : p.1.title ∈ (rest.map (fun q => q.1.title)).toFinset
    · rw [Finset.card_erase_add_one hmem, Finset.insert_eq_self.mpr hmem]
    · rw [Finset.erase_eq_of_not_mem hmem,
        Finset.card_insert_of_not_mem hmem]
termination_by l => l.length
decreasing_by
  exact Nat.lt_succ_of_le (List.length_filter_le _ _)

/-- C2: the retrieval engine builds the source list by keeping only the first
occurrence of each distinct document title — with
`relevance_score = 1 - distance` — in result order, then truncating to at most
3 entries; consequently the number of sources is at most the minimum of 3 and
the number of distinct titles among the results. -/
theorem retrieve_sources_dedup (q : String) (res : QueryResults) :
    (retrieve_and_generate q res).sources =
      ((specDedupFirstByTitle (res.metadatas.zip res.distances)).map
        (fun p => sourceOf p.1 p.2)).take 3 ∧
    (retrieve_and_generate q res).sources.length ≤
      min 3 ((res.metadatas.zip res.distances).map
        (fun p => p.1.title)).dedup.length := by
  have hmain : (retrieve_and_generate q res).sources =
      ((specDedupFirstByTitle (res.metadatas.zip res.distances)).map
        (fun p => sourceOf p.1 p.2)).take 3 := by
    show (sourcesLoop (res.metadatas.zip res.distances) []).take 3 = _
    rw [sourcesLoop_eq_dedup]
    rw [List.filter_eq_self.mpr (by intro a _; simp)]
  refine ⟨hmain, ?_⟩
  rw [hmain, ← List.card_toFinset]
  simp only [List.length_take, List.length_map]
  rw [specDedup_length]

/-- C4: the `retrieved_chunks` field of the value returned by the retrieval
engine always equals the number of passages the store query returned,
independent of how many sources survive title deduplication. -/
theorem retrieve_chunk_count (q : String) (res : QueryResults) :
    (retrieve_and_generate q res).retrieved_chunks = res.documents.length := rfl

/-- C6: when the vector store returns an empty result sequence, the retrieval
engine returns normally with `retrieved_chunks = 0`, an empty source list and
a non-empty explanatory answer string. -/
theorem retrieve_empty_results (q : String) (res : QueryResults)
    (hd : res.documents = []) (hm : res.metadatas = [])
    (hdist : res.distances = []) :
    (retrieve_and_generate q res).retrieved_chunks = 0 ∧
    (retrieve_and_generate q res).sources = [] ∧
    (retrieve_and_generate q res).answer ≠ "" := by
  refine ⟨?_, ?_, ?_⟩
  · simp [retrieve_and_generate, hd]
  · simp [retrieve_and_generate, hm, sourcesLoop]
  · intro h
    have heq : (retrieve_and_generate q res).answer =
        ansHead ++ q ++ ansMid ++ ("" : String).take 1500 ++ ansTail := by
      simp only [retrieve_and_generate, hd]
      rfl
    rw [heq] at h
    have hl := congrArg String.length h
    simp only [String.length_append] at hl
    have h1 : 0 < ansHead.length := by decide
    have h0 : ("" : String).length = 0 := rfl
    omega

/-- Witness for `retrieve_empty_results`: the empty result set satisfies the
hypotheses, and the conclusion holds for the query `"anything"`. -/
theorem retrieve_empty_results_witness :
    ((QueryResults.mk [] [] []).documents = [] ∧
     (QueryResults.mk [] [] []).metadatas = [] ∧
     (QueryResults.mk [] [] []).distances = []) ∧
    ((retrieve_and_generate "anything" (QueryResults.mk [] [] [])).retrieved_chunks = 0 ∧
     (retrieve_and_generate "anything" (QueryResults.mk [] [] [])).sources = [] ∧
     (retrieve_and_generate "anything" (QueryResults.mk [] [] [])).answer ≠ "") :=
  ⟨⟨rfl, rfl, rfl⟩,
    retrieve_empty_results "anything" (QueryResults.mk [] [] []) rfl rfl rfl⟩

/-- C8: for a non-empty result sequence the assembled answer is, via the fixed
template, the query followed by the context string obtained by joining the
texts of the first three passages in the order returned by the store, truncating
to at most 1500 characters. -/
theorem retrieve_answer_template (q : String) (res : QueryResults)
    (hne : res.documents ≠ []) :
    (retrieve_and_generate q res).answer =
      ansHead ++ q ++ ansMid ++
        (String.intercalate "\n\n" (res.documents.take 3)).take 1500 ++
        ansTail := rfl

/-- Witness for `retrieve_answer_template`: a concrete one-passage result. -/
theorem retrieve_answer_template_witness :
    (QueryResults.mk ["d1"] [] []).documents ≠ [] ∧
    (retrieve_and_generate "q" (QueryResults.mk ["d1"] [] [])).answer =
      ansHead ++ "q" ++ ansMid ++
        (String.intercalate "\n\n"
          ((QueryResults.mk ["d1"] [] []).documents.take 3)).take 1500 ++
        ansTail :=
  ⟨by simp, retrieve_answer_template "q" (QueryResults.mk ["d1"] [] [])
    (by simp)⟩

theorem chunks_of_len1200 (w : List String) (hlen : w.length = 1200) :
    chunks_of w =
      [w.take 500, (w.drop 450).take 500, (w.drop 900).take 500] := by
  unfold chunks_of
  rw [chunk_text_len1200 w hlen]

theorem chunks_of_len600 (w : List String) (hlen : w.length = 600) :
    chunks_of w = [w.take 500, (w.drop 450).take 500] := by
  unfold chunks_of
  rw [chunk_text_len600 w hlen]

theorem chunks_of_demo : chunks_of demoArticle.content = [["AI"]] := by
  unfold chunks_of
  rw [chunk_text_ok_of_valid _ 500 50 (by norm_num)]
  have ht : ((500 : Int) - 50).toNat = 450 := by decide
  rw [ht]
  rw [chunkLoop_last _ _ _ _ (by norm_num) (by norm_num) (by decide)
    (by decide)]
  rfl

theorem addDocsLoop_ids :
    ∀ (arts : List Article) (d : Nat),
      (addDocsLoop arts d).ids =
        ((List.enumFrom d arts).map (fun da =>
          (chunks_of da.2.content).enum.map
            (fun ci => toString da.1 ++ "_" ++ toString ci.1))).flatten := by
  intro arts
  induction arts with
  | nil =>
    intro d
    simp [addDocsLoop]
  | cons a rest ih =>
    intro d
    simp only [addDocsLoop, List.enumFrom_cons, List.map_cons,
      List.flatten_cons]
    rw [ih (d + 1)]

theorem addDocsLoop_doc_count :
    ∀ (arts : List Article) (d : Nat),
      (addDocsLoop arts d).documents.length =
        (arts.map (fun a => (chunks_of a.content).length)).sum := by
  intro arts
  induction arts with
  | nil =>
    intro d
    simp [addDocsLoop]
  | cons a rest ih =>
    intro d
    simp [addDocsLoop, ih (d + 1)]

theorem addDocsLoop_metadata_keys :
    ∀ (arts : List Article) (d : Nat) (md : List (String × MVal)),
      md ∈ (addDocsLoop arts d).metadatas →
        md.map Prod.fst =
          ["title", "url", "topic", "chunk_id", "total_chunks"] := by
  intro arts
  induction arts with
  | nil =>
    intro d md hmd
    simp [addDocsLoop] at hmd
  | cons a rest ih =>
    intro d md hmd
    simp only [addDocsLoop, List.mem_append] at hmd
    rcases hmd with h | h
    · rw [List.mem_map] at h
      obtain ⟨ci, _, rfl⟩ := h
      rfl
    · exact ih (d + 1) md h

theorem demo_metadatas_eq :
    (add_documents [demoArticle]).1.metadatas =
      [mkMetadata demoArticle 0 1] := by
  show (addDocsLoop [demoArticle] 0).metadatas = _
  simp only [addDocsLoop, chunks_of_demo]
  rfl

/-- C5: ingestion assigns each document the ordinal equal to its 0-based
input position and gives each stored record the id
`"{document_ordinal}_{chunk_index}"`; ingesting two documents that chunk into
3 and 2 passages yields exactly the ids `0_0, 0_1, 0_2, 1_0, 1_1` and five
stored records. -/
theorem ingest_ids_scheme :
    (∀ articles : List Article,
      (add_documents articles).1.ids =
        (articles.enum.map (fun da =>
          (chunks_of da.2.content).enum.map
            (fun ci => toString da.1 ++ "_" ++ toString ci.1))).flatten) ∧
    ((add_documents [demoArticle1200, demoArticle600]).1.ids =
        ["0_0", "0_1", "0_2", "1_0", "1_1"] ∧
     (add_documents [demoArticle1200, demoArticle600]).1.documents.length =
        5) := by
  have h1200 : chunks_of demoArticle1200.content =
      [demoArticle1200.content.take 500,
       (demoArticle1200.content.drop 450).take 500,
       (demoArticle1200.content.drop 900).take 500] :=
    chunks_of_len1200 _
      (by rw [show demoArticle1200.content = List.replicate 1200 "w" from rfl,
        List.length_replicate])
  have h600 : chunks_of demoArticle600.content =
      [demoArticle600.content.take 500,
       (demoArticle600.content.drop 450).take 500] :=
    chunks_of_len600 _
      (by rw [show demoArticle600.content = List.replicate 600 "w" from rfl,
        List.length_replicate])
  refine ⟨?_, ?_, ?_⟩
  · intro articles
    exact addDocsLoop_ids articles 0
  · show (addDocsLoop [demoArticle1200, demoArticle600] 0).ids = _
    simp only [addDocsLoop, h1200, h600]
    rfl
  · show (addDocsLoop [demoArticle1200, demoArticle600] 0).documents.length = 5
    simp only [addDocsLoop, h1200, h600]
    simp

/-- C7 counterexample: ingesting one single-chunk document stores one passage,
yet the ingestion entry point returns `None` — the Python `add_documents`
function has no `return` statement, so no integer count is returned to the
caller. -/
theorem ingest_no_count_counterexample :
    (add_documents [demoArticle]).2 = none ∧
    (add_documents [demoArticle]).1.documents.length = 1 := by
  refine ⟨rfl, ?_⟩
  show (addDocsLoop [demoArticle] 0).documents.length = 1
  simp only [addDocsLoop, chunks_of_demo]
  rfl

/-- C7 amended: for every input sequence of documents, ingestion stores a
number of passages equal to the sum over the documents of their chunk counts,
but returns `None` rather than that integer. -/
theorem ingest_stores_but_returns_none (articles : List Article) :
    (add_documents articles).2 = none ∧
    (add_documents articles).1.documents.length =
      (articles.map (fun a => (chunks_of a.content).length)).sum :=
  ⟨rfl, addDocsLoop_doc_count articles 0⟩

/-- C9 counterexample: the metadata stored for a record does not contain a
field named `chunk_index` — the source uses the key `chunk_id`
(src/rag_system.py, line 57). -/
theorem ingest_metadata_no_chunk_index :
    ¬ (∀ md ∈ (add_documents [demoArticle]).1.metadatas,
        "chunk_index" ∈ md.map Prod.fst) := by
  intro hall
  have h := hall (mkMetadata demoArticle 0 1)
    (by rw [demo_metadatas_eq]; exact List.mem_singleton.mpr rfl)
  simp [mkMetadata] at h

/-- C9 amended: every record inserted by ingestion carries a metadata map
containing exactly the fields `title`, `url`, `topic`, `chunk_id` and
`total_chunks` (in that insertion order), all present at insertion time. -/
theorem ingest_metadata_fields (articles : List Article) :
    ∀ md ∈ (add_documents articles).1.metadatas,
      md.map Prod.fst =
        ["title", "url", "topic", "chunk_id", "total_chunks"] := by
  intro md hmd
  exact addDocsLoop_metadata_keys articles 0 md hmd

/-- Witness for `ingest_metadata_fields`: the metadata of the single record
produced by ingesting `demoArticle` is in the stored batch and carries exactly
the five fields. -/
theorem ingest_metadata_fields_witness :
    mkMetadata demoArticle 0 1 ∈ (add_documents [demoArticle]).1.metadatas ∧
    (mkMetadata demoArticle 0 1).map Prod.fst =
      ["title", "url", "topic", "chunk_id", "total_chunks"] := by
  have hmem : mkMetadata demoArticle 0 1 ∈
      (add_documents [demoArticle]).1.metadatas := by
    rw [demo_metadatas_eq]
    exact List.mem_singleton.mpr rfl
  exact ⟨hmem,
    ingest_metadata_fields [demoArticle] (mkMetadata demoArticle 0 1) hmem⟩
